import Mathlib

/-!
Shallow embedding of the raytracer in `src/main.rs`.

`f32` values are modelled as real numbers.  The one place the program can
produce a NaN is the division at the end of the quadratic solver (`0.0/0.0`
when the ray direction is the zero vector), so that division is modelled as
returning `Option ℝ`, with `none` standing for NaN; every comparison against
a NaN is false, which the model mirrors by pattern-matching on the option.
Machine integers (`i32` canvas coordinates, `u8` colour channels) are
modelled as `Int` and `Nat`; Rust `i32` division truncates towards zero,
which is `Int.tdiv`.
-/

noncomputable section

/-- `glam::Vec3` restricted to the operations the program uses. -/
structure Vec3 where
  x : ℝ
  y : ℝ
  z : ℝ

def Vec3.sub (a b : Vec3) : Vec3 := ⟨a.x - b.x, a.y - b.y, a.z - b.z⟩

def Vec3.add (a b : Vec3) : Vec3 := ⟨a.x + b.x, a.y + b.y, a.z + b.z⟩

def Vec3.smul (r : ℝ) (a : Vec3) : Vec3 := ⟨r * a.x, r * a.y, r * a.z⟩

def Vec3.dot (a b : Vec3) : ℝ := a.x * b.x + a.y * b.y + a.z * b.z

/-- `Vec3::length`: the Euclidean norm. -/
def Vec3.length (a : Vec3) : ℝ := Real.sqrt (a.dot a)

/-- Componentwise division by a scalar, used for `n / n.length()`.  In the
program a zero divisor would give NaN components; those components are then
only ever fed into dot products guarded by `n_dot_l > 0.0`, which is false
for NaN exactly as it is false for the `0` that real division by zero yields
here, so plain real division is behaviourally faithful. -/
def Vec3.divR (a : Vec3) (r : ℝ) : Vec3 := ⟨a.x / r, a.y / r, a.z / r⟩

/-- `sdl2::pixels::Color` (r, g, b, a channels, each a `u8`). -/
structure Color where
  r : ℕ
  g : ℕ
  b : ℕ
  a : ℕ
deriving DecidableEq

/-- `Color::RGB` sets the alpha channel to 255. -/
def Color.RGB (r g b : ℕ) : Color := ⟨r, g, b, 255⟩

/-- `const INF: f32 = f32::MAX;` — the exact value of `f32::MAX`. -/
def INF : ℝ := 2 ^ 128 - 2 ^ 104

/-- `const BACKGROUND_COLOR: Color = Color::WHITE;` -/
def BACKGROUND_COLOR : Color := ⟨255, 255, 255, 255⟩

structure Sphere where
  radius : ℝ
  center : Vec3
  color : Color

inductive LightType where
  | Ambient
  | Point
  | Directional

/-- The program's `Light` struct: a kind tag together with *optional*
position and direction fields (`position: Option<Vec3>`,
`direction: Option<Vec3>`). -/
structure Light where
  kind : LightType
  intensity : ℝ
  position : Option Vec3
  direction : Option Vec3

structure Scene where
  spheres : List Sphere
  lighting : List Light

/-- Rust `f32` division as used for the quadratic roots.  IEEE division
yields NaN exactly for `0.0/0.0`; in this program the divisor `2a` vanishes
only when the direction is the zero vector, which forces the dividend
`-b ± √discriminant` to vanish as well, so a zero divisor is modelled as
NaN (`none`).  A nonzero dividend over zero (IEEE ±∞) cannot occur here. -/
def fdiv (x y : ℝ) : Option ℝ :=
  if y = 0 then none else some (x / y)

/-- `intersect_ray_sphere` from `src/main.rs` (the ray direction parameter
is called `distance` there). -/
def intersect_ray_sphere (origin distance : Vec3) (sphere : Sphere) :
    Option ℝ × Option ℝ :=
  let r := sphere.radius
  let co := origin.sub sphere.center
  let a := distance.dot distance
  let b := 2 * co.dot distance
  let c := co.dot co - r * r
  let discriminant := b * b - 4 * a * c
  if discriminant < 0 then
    (some INF, some INF)
  else
    (fdiv (-b + Real.sqrt discriminant) (2 * a),
     fdiv (-b - Real.sqrt discriminant) (2 * a))

/-- One iteration of the accumulation loop in `compute_lighting`.  The
`unwrap()` of a missing `position`/`direction` field is a panic, modelled
as `none`, which then absorbs the rest of the fold. -/
def lightStep (p n : Vec3) (acc : Option ℝ) (light : Light) : Option ℝ :=
  match acc with
  | none => none
  | some i =>
    match light.kind with
    | LightType.Ambient => some (i + light.intensity)
    | LightType.Point =>
      match light.position with
      | none => none
      | some pos =>
        let l := pos.sub p
        let n_dot_l := n.dot l
        if 0 < n_dot_l then
          some (i + light.intensity * n_dot_l / (n.length * l.length))
        else
          some i
    | LightType.Directional =>
      match light.direction with
      | none => none
      | some dir =>
        let n_dot_l := n.dot dir
        if 0 < n_dot_l then
          some (i + light.intensity * n_dot_l / (n.length * dir.length))
        else
          some i

/-- `compute_lighting` from `src/main.rs`: starts at `0.0` and folds the
lights in order; `none` models a panic on a malformed light. -/
def compute_lighting (p n : Vec3) (scene : Scene) : Option ℝ :=
  scene.lighting.foldl (lightStep p n) (some 0)

/-- The mutable state of the sphere loop in `trace_ray`:
`closest_t` starts at `INF`, `closest_sphere` at `None`. -/
structure TState where
  closest_t : ℝ
  closest_sphere : Option Sphere

/-- One iteration of the sphere loop in `trace_ray`: both roots are tested
with the strict comparisons `min_t < t && t < max_t && t < closest_t`
(`t1` first, then `t2`); a NaN root (`none`) fails every comparison. -/
def traceStep (origin direction : Vec3) (min_t max_t : ℝ)
    (st : TState) (sphere : Sphere) : TState :=
  let ts := intersect_ray_sphere origin direction sphere
  let st1 :=
    match ts.1 with
    | none => st
    | some t1 =>
      if min_t < t1 ∧ t1 < max_t ∧ t1 < st.closest_t then
        ⟨t1, some sphere⟩
      else st
  match ts.2 with
  | none => st1
  | some t2 =>
    if min_t < t2 ∧ t2 < max_t ∧ t2 < st1.closest_t then
      ⟨t2, some sphere⟩
    else st1

/-- The state of the sphere loop of `trace_ray` after scanning the whole
scene. -/
def traceState (origin direction : Vec3) (min_t max_t : ℝ) (scene : Scene) :
    TState :=
  scene.spheres.foldl (traceStep origin direction min_t max_t) ⟨INF, none⟩

/-- Rust `as u8` applied to an `f32`: round towards zero and saturate to
`[0, 255]` (a negative input floors to `0` via `Nat.floor`, matching the
saturation at the low end). -/
def cast_u8 (x : ℝ) : ℕ := min 255 ⌊x⌋₊

/-- The hit branch of `trace_ray`: hit point, normalized outward normal,
lighting, and per-channel scaling with the narrowing `as u8` cast.  `none`
propagates a lighting panic. -/
def shadeHit (origin direction : Vec3) (scene : Scene)
    (closest_t : ℝ) (sphere : Sphere) : Option Color :=
  let p := origin.add (Vec3.smul closest_t direction)
  let n0 := p.sub sphere.center
  let n := n0.divR n0.length
  match compute_lighting p n scene with
  | none => none
  | some light_intensity =>
    some (Color.RGB
      (cast_u8 ((sphere.color.r : ℝ) * light_intensity))
      (cast_u8 ((sphere.color.g : ℝ) * light_intensity))
      (cast_u8 ((sphere.color.b : ℝ) * light_intensity)))

/-- `trace_ray` from `src/main.rs`; `none` models a panic inside
`compute_lighting`, every genuine return value is `some`. -/
def trace_ray (origin direction : Vec3) (min_t max_t : ℝ) (scene : Scene) :
    Option Color :=
  let st := traceState origin direction min_t max_t scene
  match st.closest_sphere with
  | none => some BACKGROUND_COLOR
  | some sphere => shadeHit origin direction scene st.closest_t sphere

/-- The candidate roots one sphere contributes, in the order the loop body
tests them (`t1` then `t2`), filtered by the range check
`min_t < t && t < max_t`; NaN roots are never candidates. -/
def sphereCands (origin direction : Vec3) (min_t max_t : ℝ)
    (sphere : Sphere) : List (ℝ × Sphere) :=
  let ts := intersect_ray_sphere origin direction sphere
  (match ts.1 with
   | none => []
   | some t => if min_t < t ∧ t < max_t then [(t, sphere)] else []) ++
  (match ts.2 with
   | none => []
   | some t => if min_t < t ∧ t < max_t then [(t, sphere)] else [])

/-- All candidate roots of the scene in scan order: spheres in sequence
order, `t1` before `t2` for each sphere. -/
def candList (origin direction : Vec3) (min_t max_t : ℝ)
    (spheres : List Sphere) : List (ℝ × Sphere) :=
  (spheres.map (sphereCands origin direction min_t max_t)).flatten

/-- The selection fold of `trace_ray` abstracted over an explicit candidate
list: each candidate updates the state exactly when its `t` is strictly
below the current `closest_t`. -/
def sel : TState → List (ℝ × Sphere) → TState
  | st, [] => st
  | st, c :: l => sel (if c.1 < st.closest_t then ⟨c.1, some c.2⟩ else st) l

/-- A light the shading loop can process without panicking: a Point light
carries a position, a Directional light carries a direction. -/
def Light.wellFormed (light : Light) : Prop :=
  (light.kind = LightType.Point → light.position.isSome) ∧
  (light.kind = LightType.Directional → light.direction.isSome)

/-- Per-light contribution as §4.5 of the specification describes it
(Ambient adds its intensity; Point and Directional add
`intensity·d/(|n|·|l|)` when `d > 0` and nothing otherwise); to be compared
against the accumulation loop of the source.  A malformed light is given
contribution `0`; the comparison theorem only covers well-formed lights. -/
def lightContribution (p n : Vec3) (light : Light) : ℝ :=
  match light.kind with
  | LightType.Ambient => light.intensity
  | LightType.Point =>
    match light.position with
    | none => 0
    | some pos =>
      let l := pos.sub p
      let d := n.dot l
      if 0 < d then light.intensity * d / (n.length * l.length) else 0
  | LightType.Directional =>
    match light.direction with
    | none => 0
    | some dir =>
      let d := n.dot dir
      if 0 < d then light.intensity * d / (n.length * dir.length) else 0

/-- The canvas-to-screen behaviour described by §9 of the specification for
out-of-range channel values ("truncates via a narrowing numeric cast
(effectively wrapping)"): truncate, then wrap modulo 256.  Modelled from
the spec's words, to be compared against the saturating `cast_u8` the code
actually performs. -/
def wrapCast_u8 (x : ℝ) : ℕ := ⌊x⌋₊ % 256

/-- The `Canvas` struct (`width`/`height` are `i32`). -/
structure Canvas where
  width : Int
  height : Int

/-- `Canvas::to_screen`: `sx = width/2 + x`, `sy = height/2 - y`, with
Rust's truncating `i32` division. -/
def Canvas.to_screen (c : Canvas) (x y : Int) : Int × Int :=
  (Int.tdiv c.width 2 + x, Int.tdiv c.height 2 - y)

/-- The iteration domain of `Canvas::each`:
`cx in (-width/2)..(width/2)` and `cy in (-height/2)..(height/2)`
(Rust half-open ranges, truncating `i32` division). -/
def Canvas.inEach (c : Canvas) (cx cy : Int) : Prop :=
  Int.tdiv (-c.width) 2 ≤ cx ∧ cx < Int.tdiv c.width 2 ∧
  Int.tdiv (-c.height) 2 ≤ cy ∧ cy < Int.tdiv c.height 2

instance (c : Canvas) (cx cy : Int) : Decidable (c.inEach cx cy) := by
  unfold Canvas.inEach
  infer_instance

/-- The sphere of the first testable property in §8: centered at
`(0,0,3)`, radius `1`. -/
def sphereA (col : Color) : Sphere := ⟨1, ⟨0, 0, 3⟩, col⟩

/-- A sphere whose nearer root is exactly `INF` for the ray from the
origin along `+z`: both of its roots pass the `min_t < t < max_t` range
check for `min_t = 0`, `max_t = INF + 3`, yet neither is ever selected. -/
def sphereFar : Sphere := ⟨1, ⟨0, 0, INF + 1⟩, Color.RGB 255 0 0⟩

def farScene : Scene := ⟨[sphereFar], []⟩

/-- A Point light lacking a position: representable because the fields are
options on one shared struct. -/
def badLight : Light := ⟨LightType.Point, 1, none, none⟩

def badScene : Scene := ⟨[], [badLight]⟩

/-- A scene whose single ambient light has intensity `2.0`, driving the
scaled red channel of `sphereA` to `510`, past the 8-bit range. -/
def brightScene : Scene :=
  ⟨[sphereA (Color.RGB 255 0 0)], [⟨LightType.Ambient, 2, none, none⟩]⟩

/-- The selection fold distributes over list append. -/
theorem sel_append (a b : List (ℝ × Sphere)) (st : TState) :
    sel st (a ++ b) = sel (sel st a) b := by
  induction a generalizing st with
  | nil => rfl
  | cons c l ih => simp only [List.cons_append, sel]; exact ih _

/-- Characterization of the selection fold: either no candidate is strictly
below the incoming `closest_t` and the state is unchanged, or the list
splits around the first candidate attaining the minimum, which becomes the
final state. -/
theorem sel_spec (l : List (ℝ × Sphere)) (st : TState) :
    (sel st l = st ∧ ∀ c ∈ l, st.closest_t ≤ c.1) ∨
    (∃ pre c post, l = pre ++ c :: post ∧ c.1 < st.closest_t ∧
      (∀ c' ∈ pre, c.1 < c'.1) ∧ (∀ c' ∈ post, c.1 ≤ c'.1) ∧
      sel st l = ⟨c.1, some c.2⟩) := by
  induction l generalizing st with
  | nil => exact Or.inl ⟨rfl, by simp⟩
  | cons c l ih =>
    by_cases h : c.1 < st.closest_t
    · have hsel : sel st (c :: l) = sel ⟨c.1, some c.2⟩ l := by
        simp only [sel, if_pos h]
      rcases ih ⟨c.1, some c.2⟩ with ⟨heq, hall⟩ | ⟨pre, c', post, hl, hlt, hpre, hpost, hres⟩
      · refine Or.inr ⟨[], c, l, by simp, h, by simp, ?_, by rw [hsel, heq]⟩
        exact fun c' hc' => hall c' hc'
      · refine Or.inr ⟨c :: pre, c', post, by rw [hl, List.cons_append], lt_trans hlt h, ?_,
          hpost, by rw [hsel, hres]⟩
        intro c'' hc''
        rcases List.mem_cons.mp hc'' with h1 | h2
        · rw [h1]; exact hlt
        · exact hpre c'' h2
    · have hsel : sel st (c :: l) = sel st l := by
        simp only [sel, if_neg h]
      push_neg at h
      rcases ih st with ⟨heq, hall⟩ | ⟨pre, c', post, hl, hlt, hpre, hpost, hres⟩
      · refine Or.inl ⟨by rw [hsel, heq], ?_⟩
        intro c' hc'
        rcases List.mem_cons.mp hc' with h1 | h2
        · rw [h1]; exact h
        · exact hall c' h2
      · refine Or.inr ⟨c :: pre, c', post, by rw [hl, List.cons_append], hlt, ?_,
          hpost, by rw [hsel, hres]⟩
        intro c'' hc''
        rcases List.mem_cons.mp hc'' with h1 | h2
        · rw [h1]; exact lt_of_lt_of_le hlt h
        · exact hpre c'' h2

/-- Folding the selection over a single range-filtered root. -/
theorem sel_single (st : TState) (t : ℝ) (s : Sphere) (P : Prop) [Decidable P] :
    sel st (if P then [(t, s)] else []) =
      (if P ∧ t < st.closest_t then ⟨t, some s⟩ else st : TState) := by
  by_cases hP : P
  · rw [if_pos hP]
    show sel (if t < st.closest_t then ⟨t, some s⟩ else st) [] = _
    by_cases hlt : t < st.closest_t
    · rw [if_pos hlt, if_pos ⟨hP, hlt⟩]; rfl
    · rw [if_neg hlt, if_neg (fun hc => hlt hc.2)]; rfl
  · rw [if_neg hP, if_neg (fun hc => hP hc.1)]; rfl

theorem sel_nil (st : TState) : sel st [] = st := rfl

/-- One iteration of the sphere loop equals the selection fold over that
sphere's filtered candidates. -/
theorem traceStep_eq_sel (o d : Vec3) (mn mx : ℝ) (st : TState) (s : Sphere) :
    traceStep o d mn mx st s = sel st (sphereCands o d mn mx s) := by
  unfold traceStep sphereCands
  obtain ⟨r1, r2⟩ : Option ℝ × Option ℝ := intersect_ray_sphere o d s
  rcases r1 with _ | t1 <;> rcases r2 with _ | t2 <;>
    simp only [sel_append, sel_single, sel_nil, List.nil_append, List.append_nil, and_assoc]

/-- The whole sphere loop equals the selection fold over the scan-ordered
candidate list. -/
theorem foldl_traceStep_eq_sel (o d : Vec3) (mn mx : ℝ) (l : List Sphere)
    (st : TState) :
    l.foldl (traceStep o d mn mx) st = sel st (candList o d mn mx l) := by
  induction l generalizing st with
  | nil => rfl
  | cons s l ih =>
    simp only [List.foldl_cons, candList, List.map_cons, List.flatten_cons, sel_append,
      ← traceStep_eq_sel]
    exact ih _

theorem traceState_eq_sel (o d : Vec3) (mn mx : ℝ) (scene : Scene) :
    traceState o d mn mx scene = sel ⟨INF, none⟩ (candList o d mn mx scene.spheres) :=
  foldl_traceStep_eq_sel o d mn mx scene.spheres ⟨INF, none⟩

/-- C1 (amended): a root `t` is a candidate iff `min_t < t < max_t`
(strict, open interval), as `candList` records in scan order (spheres in
sequence order, `t1` before `t2`); among the candidates that are also
strictly below the initial `closest_t = INF`, the first one attaining the
minimal `t` is selected — spheres earlier in the scan win ties, and `t1`
is kept over an equal `t2`, because the selection only updates on a
strictly smaller value.  Candidates with `t ≥ INF` (possible only when
`max_t > INF`) never update the selection, so when every candidate is
`≥ INF` the background color is returned. -/
theorem trace_ray_candidate_selection (origin direction : Vec3)
    (min_t max_t : ℝ) (scene : Scene) :
    ((∀ c ∈ candList origin direction min_t max_t scene.spheres, INF ≤ c.1) →
      traceState origin direction min_t max_t scene = ⟨INF, none⟩ ∧
      trace_ray origin direction min_t max_t scene = some BACKGROUND_COLOR) ∧
    ((∃ c ∈ candList origin direction min_t max_t scene.spheres, c.1 < INF) →
      ∃ pre c post,
        candList origin direction min_t max_t scene.spheres = pre ++ c :: post ∧
        c.1 < INF ∧ (∀ c' ∈ pre, c.1 < c'.1) ∧ (∀ c' ∈ post, c.1 ≤ c'.1) ∧
        traceState origin direction min_t max_t scene = ⟨c.1, some c.2⟩ ∧
        trace_ray origin direction min_t max_t scene =
          shadeHit origin direction scene c.1 c.2) := by
  constructor
  · intro hall
    rcases sel_spec (candList origin direction min_t max_t scene.spheres) ⟨INF, none⟩ with
      ⟨heq, _⟩ | ⟨pre, c, post, hl, hlt, _, _, _⟩
    · have hst : traceState origin direction min_t max_t scene = ⟨INF, none⟩ := by
        rw [traceState_eq_sel, heq]
      exact ⟨hst, by simp only [trace_ray, hst]⟩
    · have hc : c ∈ candList origin direction min_t max_t scene.spheres := by
        rw [hl]
        exact List.mem_append_right _ (List.mem_cons_self _ _)
      exact absurd hlt (not_lt.mpr (hall c hc))
  · rintro ⟨c0, hc0, hc0lt⟩
    rcases sel_spec (candList origin direction min_t max_t scene.spheres) ⟨INF, none⟩ with
      ⟨_, hall⟩ | ⟨pre, c, post, hl, hlt, hpre, hpost, hres⟩
    · exact absurd (hall c0 hc0) (not_le.mpr hc0lt)
    · have hst : traceState origin direction min_t max_t scene = ⟨c.1, some c.2⟩ := by
        rw [traceState_eq_sel, hres]
      exact ⟨pre, c, post, hl, hlt, hpre, hpost, hst, by simp only [trace_ray, hst]⟩


theorem sqrt_four : Real.sqrt 4 = 2 := by
  rw [show (4:ℝ) = 2^2 by norm_num, Real.sqrt_sq]; norm_num

theorem intersect_eval (origin distance : Vec3) (sphere : Sphere) (a b c : ℝ)
    (ha : distance.dot distance = a)
    (hb : 2 * (origin.sub sphere.center).dot distance = b)
    (hc : (origin.sub sphere.center).dot (origin.sub sphere.center) -
      sphere.radius * sphere.radius = c) :
    intersect_ray_sphere origin distance sphere =
      if b * b - 4 * a * c < 0 then (some INF, some INF)
      else (fdiv (-b + Real.sqrt (b * b - 4 * a * c)) (2 * a),
            fdiv (-b - Real.sqrt (b * b - 4 * a * c)) (2 * a)) := by
  simp only [intersect_ray_sphere]
  rw [ha, hb, hc]

/-- For the ray from the origin along `+z` and a unit sphere centered at
`(0,0,z)`, the roots are `z+1` (as `t1`) and `z-1` (as `t2`). -/
theorem intersect_axis_sphere (z : ℝ) (col : Color) :
    intersect_ray_sphere ⟨0, 0, 0⟩ ⟨0, 0, 1⟩ ⟨1, ⟨0, 0, z⟩, col⟩ =
      (some (z + 1), some (z - 1)) := by
  rw [intersect_eval ⟨0,0,0⟩ ⟨0,0,1⟩ ⟨1, ⟨0,0,z⟩, col⟩ 1 (-(2*z)) (z*z - 1)
    (by simp only [Vec3.dot]; ring) (by simp only [Vec3.dot, Vec3.sub]; ring)
    (by simp only [Vec3.dot, Vec3.sub]; ring)]
  rw [show -(2*z) * -(2*z) - 4 * 1 * (z*z - 1) = 4 by ring]
  rw [if_neg (by norm_num), sqrt_four]
  simp only [fdiv, if_neg (show ¬((2:ℝ) * 1 = 0) by norm_num), Prod.mk.injEq,
    Option.some.injEq]
  constructor <;> ring

theorem INF_pos : (0:ℝ) < INF := by norm_num [INF]

/-- With a zero direction the solver reaches `a = 0`, `b = 0`,
`discriminant = 0`, takes the non-sentinel branch, and divides `0.0/0.0`:
both roots are NaN. -/
theorem intersect_zero_direction (o : Vec3) (s : Sphere) :
    intersect_ray_sphere o ⟨0, 0, 0⟩ s = (none, none) := by
  rw [intersect_eval o ⟨0,0,0⟩ s 0 0
    ((o.sub s.center).dot (o.sub s.center) - s.radius * s.radius)
    (by simp [Vec3.dot]) (by simp [Vec3.dot]) rfl]
  rw [show ∀ x : ℝ, (0:ℝ) * 0 - 4 * 0 * x = 0 by intro x; ring]
  rw [if_neg (lt_irrefl 0)]
  simp only [fdiv, if_pos (show (2:ℝ) * 0 = 0 by norm_num)]

theorem sphereCands_zero_direction (o : Vec3) (mn mx : ℝ) (s : Sphere) :
    sphereCands o ⟨0, 0, 0⟩ mn mx s = [] := by
  simp only [sphereCands, intersect_zero_direction, List.append_nil]

/-- C6: a zero-length ray direction produces no intersections: both roots
come back NaN (`none`), NaN fails every strict range comparison, and
`trace_ray` consequently returns the background color for every scene and
every bounds. -/
theorem trace_ray_zero_direction (o : Vec3) (mn mx : ℝ) (scene : Scene) :
    (∀ s : Sphere, intersect_ray_sphere o ⟨0, 0, 0⟩ s = (none, none)) ∧
    trace_ray o ⟨0, 0, 0⟩ mn mx scene = some BACKGROUND_COLOR := by
  refine ⟨intersect_zero_direction o, ?_⟩
  have hc : candList o ⟨0,0,0⟩ mn mx scene.spheres = [] := by
    simp [candList, sphereCands_zero_direction]
  simp only [trace_ray, traceState_eq_sel, hc, sel_nil]

/-- C8: when no root of any sphere lies strictly between `min_t` and
`max_t`, `trace_ray` returns the background color (opaque white) — there
is no failure path. -/
theorem trace_ray_no_candidate (o d : Vec3) (mn mx : ℝ) (scene : Scene)
    (h : ∀ s ∈ scene.spheres, ∀ t : ℝ,
      ((intersect_ray_sphere o d s).1 = some t ∨
       (intersect_ray_sphere o d s).2 = some t) →
      ¬(mn < t ∧ t < mx)) :
    trace_ray o d mn mx scene = some BACKGROUND_COLOR := by
  have hc : candList o d mn mx scene.spheres = [] := by
    unfold candList
    rw [List.flatten_eq_nil_iff]
    intro l hl
    rw [List.mem_map] at hl
    obtain ⟨s, hs, rfl⟩ := hl
    have h1 := h s hs
    simp only [sphereCands]
    cases hr1 : (intersect_ray_sphere o d s).1 with
    | none =>
      cases hr2 : (intersect_ray_sphere o d s).2 with
      | none => rfl
      | some t => simp [h1 t (Or.inr hr2)]
    | some t =>
      cases hr2 : (intersect_ray_sphere o d s).2 with
      | none => simp [h1 t (Or.inl hr1)]
      | some t' => simp [h1 t (Or.inl hr1), h1 t' (Or.inr hr2)]
  simp only [trace_ray, traceState_eq_sel, hc, sel_nil]

theorem trace_ray_no_candidate_witness :
    trace_ray ⟨0, 0, 0⟩ ⟨0, 0, 1⟩ 1 INF ⟨[], []⟩ = some BACKGROUND_COLOR :=
  trace_ray_no_candidate ⟨0,0,0⟩ ⟨0,0,1⟩ 1 INF ⟨[], []⟩
    (by intro s hs; simp at hs)

/-- C10: for a sphere centered at `(0,0,3)` with radius `1`, the ray from
the origin with direction `(0,0,1)` yields exactly the roots `4` (as `t1`)
and `2` (as `t2`) — the unordered pair `{2, 4}`. -/
theorem intersect_example_sphere (col : Color) :
    intersect_ray_sphere ⟨0, 0, 0⟩ ⟨0, 0, 1⟩ ⟨1, ⟨0, 0, 3⟩, col⟩ =
      (some 4, some 2) := by
  rw [intersect_axis_sphere]
  norm_num

/-- C2: the solver computes `a = d·d`, `b = 2·(o−c)·d`,
`c = (o−c)·(o−c) − r²`; a negative discriminant returns the sentinel
`(INF, INF)`; otherwise (for `a ≠ 0`) the two roots are
`(−b ± √disc)/2a` with `t1 ≥ t2` whenever `a > 0`. -/
theorem intersect_quadratic_formulas (origin distance : Vec3) (sphere : Sphere)
    (a b c disc : ℝ)
    (ha : a = distance.dot distance)
    (hb : b = 2 * ((origin.sub sphere.center).dot distance))
    (hc : c = (origin.sub sphere.center).dot (origin.sub sphere.center) -
      sphere.radius * sphere.radius)
    (hdisc : disc = b * b - 4 * a * c) :
    (disc < 0 → intersect_ray_sphere origin distance sphere = (some INF, some INF)) ∧
    (0 ≤ disc → a ≠ 0 →
      intersect_ray_sphere origin distance sphere =
        (some ((-b + Real.sqrt disc) / (2 * a)),
         some ((-b - Real.sqrt disc) / (2 * a))) ∧
      (0 < a → (-b - Real.sqrt disc) / (2 * a) ≤ (-b + Real.sqrt disc) / (2 * a))) := by
  have heval := intersect_eval origin distance sphere a b c ha.symm hb.symm hc.symm
  constructor
  · intro hneg
    rw [heval, if_pos (hdisc ▸ hneg)]
  · intro hpos hane
    have h2a : (2:ℝ) * a ≠ 0 := mul_ne_zero two_ne_zero hane
    refine ⟨?_, ?_⟩
    · rw [heval, if_neg (not_lt.mpr (hdisc ▸ hpos))]
      simp only [fdiv, if_neg h2a, hdisc]
    · intro hapos
      rw [div_le_div_iff_of_pos_right (by linarith : (0:ℝ) < 2 * a)]
      linarith [Real.sqrt_nonneg disc]

theorem intersect_quadratic_formulas_witness :
    intersect_ray_sphere ⟨0, 0, 0⟩ ⟨0, 0, 1⟩ ⟨1, ⟨0, 0, 3⟩, Color.RGB 200 100 50⟩ =
      (some 4, some 2) := by
  have h := (intersect_quadratic_formulas ⟨0,0,0⟩ ⟨0,0,1⟩
      ⟨1, ⟨0,0,3⟩, Color.RGB 200 100 50⟩ 1 (-6) 8 4
      (by simp only [Vec3.dot]; norm_num)
      (by simp only [Vec3.dot, Vec3.sub]; norm_num)
      (by simp only [Vec3.dot, Vec3.sub]; norm_num)
      (by norm_num)).2 (by norm_num) (by norm_num)
  rw [h.1, sqrt_four]
  norm_num

/-- The lighting loop with any starting accumulator equals that start plus
the sum of the per-light contributions, provided every light is
well-formed. -/
theorem foldl_lightStep_sum (p n : Vec3) (ls : List Light) (i : ℝ)
    (h : ∀ light ∈ ls, light.wellFormed) :
    ls.foldl (lightStep p n) (some i) =
      some (i + (ls.map (lightContribution p n)).sum) := by
  induction ls generalizing i with
  | nil => simp
  | cons light ls ih =>
    have hwf := h light (List.mem_cons_self _ _)
    have hrest : ∀ l ∈ ls, l.wellFormed := fun l hl => h l (List.mem_cons_of_mem _ hl)
    simp only [List.foldl_cons, List.map_cons, List.sum_cons, lightStep, lightContribution]
    cases hk : light.kind with
    | Ambient =>
      rw [ih _ hrest]
      congr 1
      ring
    | Point =>
      obtain ⟨pos, hpos⟩ := Option.isSome_iff_exists.mp (hwf.1 hk)
      rw [hpos]
      simp only []
      by_cases hd : 0 < n.dot (pos.sub p)
      · rw [if_pos hd, if_pos hd, ih _ hrest]
        congr 1
        ring
      · rw [if_neg hd, if_neg hd, ih _ hrest]
        congr 1
        ring
    | Directional =>
      obtain ⟨dir, hdir⟩ := Option.isSome_iff_exists.mp (hwf.2 hk)
      rw [hdir]
      simp only []
      by_cases hd : 0 < n.dot dir
      · rw [if_pos hd, if_pos hd, ih _ hrest]
        congr 1
        ring
      · rw [if_neg hd, if_neg hd, ih _ hrest]
        congr 1
        ring

/-- C3: for well-formed lights, `compute_lighting` starts at `0` and
accumulates, light by light in order, exactly the per-light contribution:
Ambient adds its intensity unconditionally; Point (with `l = position − p`,
`d = n·l`) and Directional (with its fixed direction) add
`intensity·d/(|n|·|l|)` iff `d > 0` and nothing otherwise; the result is
the bare sum, with no clamping or upper bound applied. -/
theorem compute_lighting_accumulates (p n : Vec3) (scene : Scene)
    (h : ∀ light ∈ scene.lighting, light.wellFormed) :
    compute_lighting p n scene =
      some ((scene.lighting.map (lightContribution p n)).sum) := by
  have hsum := foldl_lightStep_sum p n scene.lighting 0 h
  rw [zero_add] at hsum
  exact hsum

theorem compute_lighting_accumulates_witness :
    compute_lighting ⟨0, 0, 0⟩ ⟨0, 0, 1⟩
      ⟨[], [⟨LightType.Ambient, 2, none, none⟩]⟩ = some 2 := by
  rw [compute_lighting_accumulates ⟨0,0,0⟩ ⟨0,0,1⟩
    ⟨[], [⟨LightType.Ambient, 2, none, none⟩]⟩ ?_]
  · simp [lightContribution]
  · intro l hl
    rw [List.mem_singleton] at hl
    subst hl
    exact ⟨fun hk => LightType.noConfusion hk, fun hk => LightType.noConfusion hk⟩

/-- C4 (amended): with every Point light carrying a position and every
Directional light a direction, the shading loop cannot fail. -/
theorem compute_lighting_wellFormed_no_panic (p n : Vec3) (scene : Scene)
    (h : ∀ light ∈ scene.lighting, light.wellFormed) :
    compute_lighting p n scene ≠ none := by
  unfold compute_lighting
  rw [foldl_lightStep_sum p n scene.lighting 0 h]
  exact Option.some_ne_none _

theorem compute_lighting_wellFormed_no_panic_witness :
    compute_lighting ⟨0, 0, 0⟩ ⟨0, 0, 1⟩ ⟨[], []⟩ ≠ none :=
  compute_lighting_wellFormed_no_panic ⟨0,0,0⟩ ⟨0,0,1⟩ ⟨[], []⟩
    (by intro l hl; simp at hl)

/-- C4 counterexample: a Point light lacking a position is a perfectly
constructible `Light` value, and shading a scene containing it fails (the
`unwrap()` panics, modelled as `none`). -/
theorem light_missing_position_panics :
    badLight.kind = LightType.Point ∧ badLight.position = none ∧
    compute_lighting ⟨0, 0, 0⟩ ⟨0, 0, 1⟩ badScene = none :=
  ⟨rfl, rfl, rfl⟩

/-- C7 (amended): the narrowing `as u8` cast saturates — the result never
exceeds 255, and any scaled channel value of at least 255 produces exactly
255 (not a wrapped-around value). -/
theorem cast_u8_saturates (x : ℝ) :
    cast_u8 x ≤ 255 ∧ (255 ≤ x → cast_u8 x = 255) := by
  constructor
  · exact min_le_left _ _
  · intro h
    unfold cast_u8
    have h255 : (255 : ℕ) ≤ ⌊x⌋₊ := Nat.le_floor (by exact_mod_cast h)
    omega

theorem cast_u8_saturates_witness : cast_u8 510 = 255 :=
  (cast_u8_saturates 510).2 (by norm_num)

/-- C5 (amended): for a positive-dimension canvas, every offset produced by
the iteration maps to a screen point with `0 ≤ sx < width` and
`0 < sy ≤ height`; the `y` bound is tight — `sy = height` occurs (for even
heights, at `cy = -height/2`), one past the surface's valid range. -/
theorem to_screen_bounds (c : Canvas) (cx cy : Int)
    (hw : 0 < c.width) (hh : 0 < c.height) (h : c.inEach cx cy) :
    0 ≤ (c.to_screen cx cy).1 ∧ (c.to_screen cx cy).1 < c.width ∧
    0 < (c.to_screen cx cy).2 ∧ (c.to_screen cx cy).2 ≤ c.height := by
  obtain ⟨h1, h2, h3, h4⟩ := h
  unfold Canvas.to_screen
  rw [Int.neg_tdiv, Int.tdiv_eq_ediv (le_of_lt hw) (by norm_num)] at h1
  rw [Int.tdiv_eq_ediv (le_of_lt hw) (by norm_num)] at h2
  rw [Int.neg_tdiv, Int.tdiv_eq_ediv (le_of_lt hh) (by norm_num)] at h3
  rw [Int.tdiv_eq_ediv (le_of_lt hh) (by norm_num)] at h4
  rw [Int.tdiv_eq_ediv (le_of_lt hw) (by norm_num),
    Int.tdiv_eq_ediv (le_of_lt hh) (by norm_num)]
  refine ⟨by omega, by omega, by omega, by omega⟩

theorem to_screen_bounds_witness :
    0 ≤ ((Canvas.mk 800 600).to_screen 0 0).1 ∧
    ((Canvas.mk 800 600).to_screen 0 0).1 < 800 ∧
    0 < ((Canvas.mk 800 600).to_screen 0 0).2 ∧
    ((Canvas.mk 800 600).to_screen 0 0).2 ≤ 600 :=
  to_screen_bounds ⟨800, 600⟩ 0 0 (by decide) (by decide) (by decide)

/-- C5 counterexample: the iteration produces the offset `(0, -300)` on an
`800 × 600` canvas, and it maps to screen `y = 600`, which is outside the
valid range `[0, 600)`. -/
theorem canvas_iteration_escapes_range :
    (Canvas.mk 800 600).inEach 0 (-300) ∧
    ((Canvas.mk 800 600).to_screen 0 (-300)).2 = 600 ∧
    ¬ ((Canvas.mk 800 600).to_screen 0 (-300)).2 < 600 :=
  ⟨by decide, by decide, by decide⟩

/-- C9: the canvas-to-screen mapping is
`(width/2 + cx, height/2 - cy)` (truncating integer division, y flipped),
and on the `800 × 600` canvas offset `(0,0)` maps to `(400,300)`,
`(-400,300)` to `(0,0)`, and `(399,-299)` to `(799,599)`. -/
theorem to_screen_mapping :
    (∀ (c : Canvas) (x y : Int),
      c.to_screen x y = (Int.tdiv c.width 2 + x, Int.tdiv c.height 2 - y)) ∧
    (Canvas.mk 800 600).to_screen 0 0 = (400, 300) ∧
    (Canvas.mk 800 600).to_screen (-400) 300 = (0, 0) ∧
    (Canvas.mk 800 600).to_screen 399 (-299) = (799, 599) :=
  ⟨fun _ _ _ => rfl, by decide, by decide, by decide⟩

theorem sel_cons (st : TState) (c : ℝ × Sphere) (l : List (ℝ × Sphere)) :
    sel st (c :: l) = sel (if c.1 < st.closest_t then ⟨c.1, some c.2⟩ else st) l := rfl

theorem sel_pair_hit (st : TState) (t1 t2 : ℝ) (s : Sphere)
    (h1 : t1 < st.closest_t) (h2 : t2 < t1) :
    sel st [(t1, s), (t2, s)] = ⟨t2, some s⟩ := by
  rw [sel_cons, if_pos h1, sel_cons, if_pos h2]
  rfl

theorem sel_pair_miss (st : TState) (t1 t2 : ℝ) (s : Sphere)
    (h1 : ¬ t1 < st.closest_t) (h2 : ¬ t2 < st.closest_t) :
    sel st [(t1, s), (t2, s)] = st := by
  rw [sel_cons, if_neg h1, sel_cons, if_neg h2]
  rfl

/-- The candidate roots of the unit sphere at `(0,0,z)` for the axis ray,
when both roots pass the range check. -/
theorem sphereCands_axis (z mn mx : ℝ) (col : Color)
    (h1 : mn < z + 1) (h2 : z + 1 < mx) (h3 : mn < z - 1) (h4 : z - 1 < mx) :
    sphereCands ⟨0, 0, 0⟩ ⟨0, 0, 1⟩ mn mx ⟨1, ⟨0, 0, z⟩, col⟩ =
      [(z + 1, ⟨1, ⟨0, 0, z⟩, col⟩), (z - 1, ⟨1, ⟨0, 0, z⟩, col⟩)] := by
  simp only [sphereCands, intersect_axis_sphere]
  rw [if_pos ⟨h1, h2⟩, if_pos ⟨h3, h4⟩]
  rfl

theorem candList_bright :
    candList ⟨0, 0, 0⟩ ⟨0, 0, 1⟩ 1 INF brightScene.spheres =
      [(4, sphereA (Color.RGB 255 0 0)), (2, sphereA (Color.RGB 255 0 0))] := by
  show candList _ _ _ _ [sphereA (Color.RGB 255 0 0)] = _
  simp only [candList, List.map_cons, List.map_nil, List.flatten_cons, List.flatten_nil,
    List.append_nil]
  rw [show sphereA (Color.RGB 255 0 0) = ⟨1, ⟨0, 0, (3:ℝ)⟩, Color.RGB 255 0 0⟩ from rfl]
  rw [sphereCands_axis 3 1 INF (Color.RGB 255 0 0) (by norm_num) (by norm_num [INF])
    (by norm_num) (by norm_num [INF])]
  norm_num

theorem traceState_bright :
    traceState ⟨0, 0, 0⟩ ⟨0, 0, 1⟩ 1 INF brightScene =
      ⟨2, some (sphereA (Color.RGB 255 0 0))⟩ := by
  rw [traceState_eq_sel, candList_bright,
    sel_pair_hit ⟨INF, none⟩ 4 2 (sphereA (Color.RGB 255 0 0))
      (show (4:ℝ) < INF by norm_num [INF]) (by norm_num)]

theorem compute_lighting_bright (p n : Vec3) :
    compute_lighting p n brightScene = some 2 := by
  show some ((0:ℝ) + 2) = some 2
  norm_num

theorem cast_u8_510 : cast_u8 510 = 255 := by
  unfold cast_u8
  have : ⌊(510:ℝ)⌋₊ = 510 := by
    rw [Nat.floor_eq_iff (by norm_num)]
    norm_num
  omega

theorem cast_u8_zero : cast_u8 0 = 0 := by
  unfold cast_u8
  simp

theorem shadeHit_bright :
    shadeHit ⟨0, 0, 0⟩ ⟨0, 0, 1⟩ brightScene 2 (sphereA (Color.RGB 255 0 0)) =
      some ⟨255, 0, 0, 255⟩ := by
  simp only [shadeHit, compute_lighting_bright, Color.RGB, sphereA]
  norm_num [cast_u8_510, cast_u8_zero]

/-- C7 counterexample: the bright scene drives the red channel to
`255 · 2.0 = 510`; the program's cast saturates it to `255`, while the
claimed truncate-and-wrap behaviour would give `510 mod 256 = 254`. -/
theorem color_channel_saturates_not_wraps :
    trace_ray ⟨0, 0, 0⟩ ⟨0, 0, 1⟩ 1 INF brightScene = some ⟨255, 0, 0, 255⟩ ∧
    wrapCast_u8 ((255:ℝ) * 2) = 254 ∧ (255 : ℕ) ≠ 254 := by
  refine ⟨?_, ?_, by norm_num⟩
  · simp only [trace_ray, traceState_bright]
    exact shadeHit_bright
  · unfold wrapCast_u8
    have : ⌊(255:ℝ) * 2⌋₊ = 510 := by
      rw [Nat.floor_eq_iff (by norm_num)]
      norm_num
    omega

theorem trace_ray_candidate_selection_witness :
    ∃ pre c post,
      candList ⟨0, 0, 0⟩ ⟨0, 0, 1⟩ 1 INF brightScene.spheres = pre ++ c :: post ∧
      c.1 < INF ∧ (∀ c' ∈ pre, c.1 < c'.1) ∧ (∀ c' ∈ post, c.1 ≤ c'.1) ∧
      traceState ⟨0, 0, 0⟩ ⟨0, 0, 1⟩ 1 INF brightScene = ⟨c.1, some c.2⟩ ∧
      trace_ray ⟨0, 0, 0⟩ ⟨0, 0, 1⟩ 1 INF brightScene =
        shadeHit ⟨0, 0, 0⟩ ⟨0, 0, 1⟩ brightScene c.1 c.2 := by
  apply (trace_ray_candidate_selection ⟨0,0,0⟩ ⟨0,0,1⟩ 1 INF brightScene).2
  refine ⟨(2, sphereA (Color.RGB 255 0 0)), ?_, show (2:ℝ) < INF by norm_num [INF]⟩
  rw [candList_bright]
  simp

theorem candList_far :
    candList ⟨0, 0, 0⟩ ⟨0, 0, 1⟩ 0 (INF + 3) farScene.spheres =
      [(INF + 2, sphereFar), (INF, sphereFar)] := by
  show candList _ _ _ _ [sphereFar] = _
  simp only [candList, List.map_cons, List.map_nil, List.flatten_cons, List.flatten_nil,
    List.append_nil]
  rw [show sphereFar = ⟨1, ⟨0, 0, INF + 1⟩, Color.RGB 255 0 0⟩ from rfl]
  rw [sphereCands_axis (INF + 1) 0 (INF + 3) (Color.RGB 255 0 0)
    (by linarith [INF_pos]) (by linarith) (by linarith [INF_pos]) (by linarith)]
  rw [show INF + 1 + 1 = INF + 2 by ring, show INF + 1 - 1 = INF by ring]

/-- C1 counterexample: for `max_t = INF + 3` the sphere `sphereFar` has
both roots `INF + 2` and `INF` strictly inside `(min_t, max_t) = (0, INF+3)`
— candidates under the claim's definition — yet neither is ever selected
(`closest_t` starts at `INF` and only strictly smaller values update it),
so `trace_ray` returns the background color instead of the smallest
candidate's hit. -/
theorem trace_ray_candidate_dropped :
    candList ⟨0, 0, 0⟩ ⟨0, 0, 1⟩ 0 (INF + 3) farScene.spheres =
      [(INF + 2, sphereFar), (INF, sphereFar)] ∧
    traceState ⟨0, 0, 0⟩ ⟨0, 0, 1⟩ 0 (INF + 3) farScene = ⟨INF, none⟩ ∧
    trace_ray ⟨0, 0, 0⟩ ⟨0, 0, 1⟩ 0 (INF + 3) farScene = some BACKGROUND_COLOR := by
  have hst : traceState ⟨0, 0, 0⟩ ⟨0, 0, 1⟩ 0 (INF + 3) farScene = ⟨INF, none⟩ := by
    rw [traceState_eq_sel, candList_far,
      sel_pair_miss ⟨INF, none⟩ (INF + 2) INF sphereFar
        (show ¬ INF + 2 < INF by intro h; linarith) (lt_irrefl INF)]
  exact ⟨candList_far, hst, by simp only [trace_ray, hst]⟩

end
